import Mathlib

/-!
Verification development for the RIssmed / RNAmediator constraint-folding and
differential-accessibility pipeline.

The definitions below are shallow embeddings of the Python source:

* `src/RIssmed/CollectConsResults.py` — `judge_diff` (BED-oriented region
  selection),
* `src/RNAmediator/GenerateBigWig.py` — `create_bw_entries` (bigwig-oriented
  region selection),
* `src/RNAmediator/Tweaks/RNAtweaks.py` — `PLFoldOutput` serialization,
  `_calc_nrg`, `_mutate`, `_check_constraint`, `api_rnaplfold` / `cmd_rnaplfold`
  window clamping and constraint dispatch, and
  `FoldOutput.from_rnamediator_fold_compound`.

IEEE floating point values are modelled as `Option ℚ`: `none` is the
not-available marker (NaN).  Python/numpy comparisons involving NaN are false,
which the lifted comparison `pyLt` reflects.  Fallible Python code (statements
that can raise, e.g. list indexing and `int(nan)`) is modelled with
`Except`/`Option` result types.
-/

/-- A Python/numpy float: `none` models NaN ("not available"). -/
abbrev PyFloat := Option ℚ

/-- Python `<` on floats: any comparison involving NaN is `False`. -/
def pyLt : PyFloat → PyFloat → Bool
  | some a, some b => decide (a < b)
  | _, _ => false

/-- Python `abs` on floats: `abs(nan)` is `nan`. -/
def pyAbs : PyFloat → PyFloat
  | some a => some |a|
  | none => none

/-- numpy `isnan`. -/
def isNanPy (v : PyFloat) : Bool := v.isNone

/-- Python `int(x)` on a float: truncates toward zero; `int(nan)` raises
`ValueError`, modelled as `Except.error`. -/
def pyIntOfFloat : PyFloat → Except Unit ℤ
  | none => Except.error ()
  | some q => Except.ok (if 0 ≤ q then ⌊q⌋ else ⌈q⌉)

/-- Python/numpy sequence indexing `l[i]`: a negative index wraps once from the
end; an index that is still out of bounds raises `IndexError`, modelled as
`Except.error`. -/
def pyIndex (l : List PyFloat) (i : ℤ) : Except Unit PyFloat :=
  let j : ℤ := if i < 0 then (l.length : ℤ) + i else i
  if 0 ≤ j then
    match l.get? j.toNat with
    | some v => Except.ok v
    | none => Except.error ()
  else Except.error ()

/-! ## BED-oriented region selection: `judge_diff` of CollectConsResults.py

`judge_diff` (lines 197-272) scans the per-position difference arrays `uc`
(unpaired constraint) and `pc` (paired constraint) against the raw array `noc`.
A position outside the inclusive constraint range `cs..ce` is reported when its
difference value lies strictly between `border1` and `border2`; the record
carries the signed distance to the constraint and `int(noc[pos])`.  Any
exception (IndexError, `int(nan)`) aborts the call before `savelists`, so an
aborted call produces no output at all. -/

/-- One output line of `judge_diff` (chromosome/strand bookkeeping elided,
position kept window-local as in the scan loop). -/
structure BedRecord where
  pos : ℕ
  value : ℚ
  dist : ℤ
  rawval : ℤ
  deriving Repr, DecidableEq

/-- Distance of a query position to the constraint `[cs, ce]` as computed in
`judge_diff` (lines 232-235): `dist = (pos - ce) * -1` when `ce < pos`, else
`dist = cs - pos`. -/
def judge_dist (cs ce pos : ℤ) : ℤ :=
  if ce < pos then (pos - ce) * (-1) else cs - pos

/-- Record construction for one position and one difference value
(`judge_diff` lines 231-246 resp. 248-263): the value must satisfy
`border1 < v and v < border2` (false for NaN); the record stores
`int(noc[pos])`, whose evaluation raises on a NaN raw value. -/
def mk_bed_record (cs ce : ℤ) (border1 border2 : ℚ) (noc : List PyFloat)
    (pos : ℕ) (v : PyFloat) : Except Unit (Option BedRecord) :=
  match v with
  | none => Except.ok none
  | some q =>
    if border1 < q ∧ q < border2 then
      match pyIndex noc (pos : ℤ) with
      | Except.error e => Except.error e
      | Except.ok rawv =>
        match pyIntOfFloat rawv with
        | Except.error e => Except.error e
        | Except.ok iraw =>
          Except.ok (some ⟨pos, q, judge_dist cs ce (pos : ℤ), iraw⟩)
    else Except.ok none

/-- Loop body of `judge_diff` for a single position: positions inside
`range(cs, ce+1)` are skipped (line 230); otherwise the `uc` and `pc` branches
each may produce a record. -/
def judge_pos (cs ce : ℤ) (border1 border2 : ℚ) (noc uc pc : List PyFloat)
    (pos : ℕ) : Except Unit (Option BedRecord × Option BedRecord) :=
  if cs ≤ (pos : ℤ) ∧ (pos : ℤ) ≤ ce then Except.ok (none, none)
  else
    match pyIndex uc (pos : ℤ) with
    | Except.error e => Except.error e
    | Except.ok ucv =>
      match mk_bed_record cs ce border1 border2 noc pos ucv with
      | Except.error e => Except.error e
      | Except.ok urec =>
        match pyIndex pc (pos : ℤ) with
        | Except.error e => Except.error e
        | Except.ok pcv =>
          match mk_bed_record cs ce border1 border2 noc pos pcv with
          | Except.error e => Except.error e
          | Except.ok prec => Except.ok (urec, prec)

/-- The scan loop `for pos in range(len(uc))` of `judge_diff`, collecting the
`u` and `p` output lists in position order. -/
def judge_loop (cs ce : ℤ) (border1 border2 : ℚ) (noc uc pc : List PyFloat) :
    List ℕ → Except Unit (List BedRecord × List BedRecord)
  | [] => Except.ok ([], [])
  | pos :: rest =>
    match judge_pos cs ce border1 border2 noc uc pc pos with
    | Except.error e => Except.error e
    | Except.ok (u, p) =>
      match judge_loop cs ce border1 border2 noc uc pc rest with
      | Except.error e => Except.error e
      | Except.ok (us, ps) => Except.ok (u.toList ++ us, p.toList ++ ps)

/-- `judge_diff` core (lines 223-265): the whole scan runs only when
`abs(noc[ce]) > cutoff` (false for a NaN aggregate); otherwise both output
lists stay empty.  An uncaught exception inside the scan is logged and
`savelists` is never reached, so an `Except.error` result means no output. -/
def judge_diff (cs ce : ℤ) (cutoff border1 border2 : ℚ)
    (noc uc pc : List PyFloat) : Except Unit (List BedRecord × List BedRecord) :=
  match pyIndex noc ce with
  | Except.error e => Except.error e
  | Except.ok nocce =>
    if pyLt (some cutoff) (pyAbs nocce) then
      judge_loop cs ce border1 border2 noc uc pc (List.range uc.length)
    else Except.ok ([], [])

/-! ## Bigwig-oriented region selection: `create_bw_entries` of GenerateBigWig.py

The per-position emission test (lines 753, 759, 765) is
`border < abs(v) and not np.isnan(v)` with `border = abs(border)` applied
beforehand (line 693). -/

/-- Per-position emission test of `create_bw_entries`. -/
def bw_keep (border : ℚ) (v : PyFloat) : Bool :=
  pyLt (some border) (pyAbs v) && !(isNanPy v)

/-- `border = abs(border)` normalisation at line 693 of GenerateBigWig.py. -/
def bw_border (border : ℚ) : ℚ := |border|

/-! ## Inversion lemmas for the `judge_diff` scan -/

lemma pyIntOfFloat_ok {v : PyFloat} {i : ℤ} (h : pyIntOfFloat v = Except.ok i) :
    ∃ q : ℚ, v = some q := by
  cases v with
  | none => simp [pyIntOfFloat] at h
  | some q => exact ⟨q, rfl⟩

lemma mk_bed_record_ok_some {cs ce : ℤ} {b1 b2 : ℚ} {noc : List PyFloat}
    {pos : ℕ} {v : PyFloat} {r : BedRecord}
    (h : mk_bed_record cs ce b1 b2 noc pos v = Except.ok (some r)) :
    v = some r.value ∧ b1 < r.value ∧ r.value < b2 ∧ r.pos = pos ∧
      r.dist = judge_dist cs ce (pos : ℤ) ∧
      ∃ rq : ℚ, pyIndex noc (pos : ℤ) = Except.ok (some rq) := by
  cases v with
  | none => simp [mk_bed_record] at h
  | some q =>
    simp only [mk_bed_record] at h
    split at h
    · split at h
      · exact absurd h (by simp)
      · split at h
        · exact absurd h (by simp)
        · rename_i hb y rawv heq x iraw heq2
          obtain ⟨rq, hrq⟩ := pyIntOfFloat_ok heq2
          simp only [Except.ok.injEq, Option.some.injEq] at h
          subst h
          subst hrq
          exact ⟨rfl, hb.1, hb.2, rfl, rfl, rq, heq⟩
    · exact absurd h (by simp)

lemma judge_pos_inv {cs ce : ℤ} {b1 b2 : ℚ} {noc uc pc : List PyFloat}
    {pos : ℕ} {urec prec : Option BedRecord}
    (h : judge_pos cs ce b1 b2 noc uc pc pos = Except.ok (urec, prec)) :
    (urec = none ∧ prec = none) ∨
      (¬(cs ≤ (pos : ℤ) ∧ (pos : ℤ) ≤ ce) ∧
       (∀ r, urec = some r → ∃ v, pyIndex uc (pos : ℤ) = Except.ok v ∧
          mk_bed_record cs ce b1 b2 noc pos v = Except.ok (some r)) ∧
       (∀ r, prec = some r → ∃ v, pyIndex pc (pos : ℤ) = Except.ok v ∧
          mk_bed_record cs ce b1 b2 noc pos v = Except.ok (some r))) := by
  unfold judge_pos at h
  split at h
  · simp only [Except.ok.injEq, Prod.mk.injEq] at h
    exact Or.inl ⟨h.1.symm, h.2.symm⟩
  · rename_i hin
    split at h
    · exact absurd h (by simp)
    · rename_i ucv hu
      split at h
      · exact absurd h (by simp)
      · rename_i urec' hmu
        split at h
        · exact absurd h (by simp)
        · rename_i pcv hp
          split at h
          · exact absurd h (by simp)
          · rename_i prec' hmp
            simp only [Except.ok.injEq, Prod.mk.injEq] at h
            refine Or.inr ⟨hin, ?_, ?_⟩
            · intro r hr
              refine ⟨ucv, hu, ?_⟩
              rw [h.1] at hmu
              rw [hr] at hmu
              exact hmu
            · intro r hr
              refine ⟨pcv, hp, ?_⟩
              rw [h.2] at hmp
              rw [hr] at hmp
              exact hmp

lemma judge_loop_mem {cs ce : ℤ} {b1 b2 : ℚ} {noc uc pc : List PyFloat}
    {l : List ℕ} {us ps : List BedRecord}
    (h : judge_loop cs ce b1 b2 noc uc pc l = Except.ok (us, ps))
    {r : BedRecord} (hr : r ∈ us ∨ r ∈ ps) :
    b1 < r.value ∧ r.value < b2 ∧
      ¬(cs ≤ (r.pos : ℤ) ∧ (r.pos : ℤ) ≤ ce) ∧
      r.dist = judge_dist cs ce (r.pos : ℤ) ∧
      ∃ rq : ℚ, pyIndex noc (r.pos : ℤ) = Except.ok (some rq) := by
  induction l generalizing us ps with
  | nil =>
    simp only [judge_loop, Except.ok.injEq, Prod.mk.injEq] at h
    rcases hr with hr | hr
    · rw [← h.1] at hr; cases hr
    · rw [← h.2] at hr; cases hr
  | cons pos rest ih =>
    simp only [judge_loop] at h
    rcases hpos : judge_pos cs ce b1 b2 noc uc pc pos with e | ⟨u, p⟩
    · rw [hpos] at h; simp at h
    · rw [hpos] at h
      rcases hrest : judge_loop cs ce b1 b2 noc uc pc rest with e | ⟨us', ps'⟩
      · rw [hrest] at h; simp at h
      · rw [hrest] at h
        simp only [Except.ok.injEq, Prod.mk.injEq] at h
        have hsplit : r ∈ u.toList ∨ r ∈ p.toList ∨ (r ∈ us' ∨ r ∈ ps') := by
          rcases hr with hr | hr
          · rw [← h.1] at hr
            rcases List.mem_append.mp hr with hm | hm
            · exact Or.inl hm
            · exact Or.inr (Or.inr (Or.inl hm))
          · rw [← h.2] at hr
            rcases List.mem_append.mp hr with hm | hm
            · exact Or.inr (Or.inl hm)
            · exact Or.inr (Or.inr (Or.inr hm))
        have hfrom_pos : r ∈ u.toList ∨ r ∈ p.toList →
            b1 < r.value ∧ r.value < b2 ∧
              ¬(cs ≤ (r.pos : ℤ) ∧ (r.pos : ℤ) ≤ ce) ∧
              r.dist = judge_dist cs ce (r.pos : ℤ) ∧
              ∃ rq : ℚ, pyIndex noc (r.pos : ℤ) = Except.ok (some rq) := by
          intro hm
          have hru : u = some r ∨ p = some r := by
            rcases hm with hm | hm
            · cases u with
              | none => cases hm
              | some r' =>
                simp only [Option.toList, List.mem_singleton] at hm
                exact Or.inl (by rw [hm])
            · cases p with
              | none => cases hm
              | some r' =>
                simp only [Option.toList, List.mem_singleton] at hm
                exact Or.inr (by rw [hm])
          rcases judge_pos_inv hpos with ⟨hu0, hp0⟩ | ⟨hnin, hinvu, hinvp⟩
          · rcases hru with hru | hru
            · rw [hu0] at hru; cases hru
            · rw [hp0] at hru; cases hru
          · have hmk : ∃ v, mk_bed_record cs ce b1 b2 noc pos v = Except.ok (some r) := by
              rcases hru with hru | hru
              · obtain ⟨v, _, hv⟩ := hinvu r hru; exact ⟨v, hv⟩
              · obtain ⟨v, _, hv⟩ := hinvp r hru; exact ⟨v, hv⟩
            obtain ⟨v, hv⟩ := hmk
            obtain ⟨_, hb1, hb2, hpos', hdist, hraw⟩ := mk_bed_record_ok_some hv
            rw [hpos']
            exact ⟨hb1, hb2, hnin, hdist, hraw⟩
        rcases hsplit with hm | hm | hm
        · exact hfrom_pos (Or.inl hm)
        · exact hfrom_pos (Or.inr hm)
        · exact ih hrest hm

lemma judge_diff_mem {cs ce : ℤ} {cutoff b1 b2 : ℚ} {noc uc pc : List PyFloat}
    {us ps : List BedRecord}
    (h : judge_diff cs ce cutoff b1 b2 noc uc pc = Except.ok (us, ps))
    {r : BedRecord} (hr : r ∈ us ∨ r ∈ ps) :
    b1 < r.value ∧ r.value < b2 ∧
      ¬(cs ≤ (r.pos : ℤ) ∧ (r.pos : ℤ) ≤ ce) ∧
      r.dist = judge_dist cs ce (r.pos : ℤ) ∧
      ∃ rq : ℚ, pyIndex noc (r.pos : ℤ) = Except.ok (some rq) := by
  unfold judge_diff at h
  split at h
  · exact absurd h (by simp)
  · split at h
    · exact judge_loop_mem h hr
    · simp only [Except.ok.injEq, Prod.mk.injEq] at h
      rcases hr with hr | hr
      · rw [← h.1] at hr; cases hr
      · rw [← h.2] at hr; cases hr

/-- Does an indexing result hold an available (non-NaN) value? -/
def ok_non_nan (x : Except Unit PyFloat) : Bool :=
  match x with
  | Except.ok (some _) => true
  | _ => false

deriving instance DecidableEq for Except

/-- Concrete raw profile used by the selection witnesses. -/
def nocW : List PyFloat := List.replicate 8 (some 2)

/-- Concrete unpaired-constraint difference profile used by the selection
witnesses. -/
def ucW : List PyFloat :=
  [some 2, some 0, some 0, some 0, some 0, some 0, some 0, some 2]

/-- Concrete paired-constraint difference profile used by the selection
witnesses. -/
def pcW : List PyFloat := List.replicate 8 (some 0)

/-- C1: in region selection, a position is reported only when the border
threshold is strictly exceeded by the difference value — in the BED-oriented
variant (`judge_diff`, CollectConsResults.py) every emitted record satisfies
`border1 < value`, hence `border1 < |value|`, and its raw value was available
(a NaN raw value would abort record construction at `int(noc[pos])`); in the
bigwig-oriented variant (`create_bw_entries`, GenerateBigWig.py) the emission
test is literally `border < abs(v) and not isnan(v)`; and in both variants a
NaN (not-available) raw or difference value is never reported. -/
theorem C1_region_selection_border_and_nan :
    ∀ (cs ce : ℤ) (cutoff border1 border2 : ℚ) (noc uc pc : List PyFloat)
      (us ps : List BedRecord) (r : BedRecord) (border : ℚ) (v : PyFloat),
      (judge_diff cs ce cutoff border1 border2 noc uc pc = Except.ok (us, ps) →
        (r ∈ us ∨ r ∈ ps) →
          border1 < |r.value| ∧ ok_non_nan (pyIndex noc (r.pos : ℤ)) = true) ∧
      (bw_keep border v = true →
        pyLt (some border) (pyAbs v) = true ∧ isNanPy v = false) ∧
      bw_keep border none = false := by
  intro cs ce cutoff b1 b2 noc uc pc us ps r border v
  refine ⟨?_, ?_, ?_⟩
  · intro h hr
    obtain ⟨hb1, _, _, _, rq, hraw⟩ := judge_diff_mem h hr
    refine ⟨lt_of_lt_of_le hb1 (le_abs_self _), ?_⟩
    rw [hraw]
    rfl
  · intro h
    simp only [bw_keep, Bool.and_eq_true, Bool.not_eq_true'] at h
    exact h
  · rfl

/-- Closed witness for C1 at a concrete selection run: the record emitted at
position 0 (value 2, border 1) satisfies the border and availability
properties, and the bigwig emission test at value 2 implies them as well. -/
theorem C1_witness :
    ((1 : ℚ) < |(2 : ℚ)| ∧ ok_non_nan (pyIndex nocW ((0 : ℕ) : ℤ)) = true) ∧
      (pyLt (some (1 : ℚ)) (pyAbs (some 2)) = true ∧
        isNanPy (some (2 : ℚ)) = false) := by
  have t := C1_region_selection_border_and_nan 5 6 1 1 4 nocW ucW pcW
    [⟨0, 2, 5, 2⟩, ⟨7, 2, -1, 2⟩] [] ⟨0, 2, 5, 2⟩ 1 (some 2)
  exact ⟨t.1 (by decide) (Or.inl (by decide)), t.2.1 (by decide)⟩

/-- C2: in the `judge_diff` selection scan, every emitted record for a
position after `ce` has distance `-(pos - ce)`, every emitted record for a
position before `cs` (for a genuine interval `cs ≤ ce`) has distance
`cs - pos`, and no position of the inclusive range `cs..ce` is ever
emitted. -/
theorem C2_distance_sign_convention :
    ∀ (cs ce : ℤ) (cutoff border1 border2 : ℚ) (noc uc pc : List PyFloat)
      (us ps : List BedRecord) (r : BedRecord),
      judge_diff cs ce cutoff border1 border2 noc uc pc = Except.ok (us, ps) →
      (r ∈ us ∨ r ∈ ps) →
      (ce < (r.pos : ℤ) → r.dist = -((r.pos : ℤ) - ce)) ∧
      (cs ≤ ce → (r.pos : ℤ) < cs → r.dist = cs - (r.pos : ℤ)) ∧
      ¬(cs ≤ (r.pos : ℤ) ∧ (r.pos : ℤ) ≤ ce) := by
  intro cs ce cutoff b1 b2 noc uc pc us ps r h hr
  obtain ⟨_, _, hnin, hdist, _⟩ := judge_diff_mem h hr
  refine ⟨?_, ?_, hnin⟩
  · intro hafter
    rw [hdist, judge_dist, if_pos hafter]
    ring
  · intro hord hbefore
    rw [hdist, judge_dist, if_neg (by omega)]

/-- Closed witness for C2 at the same concrete selection run: the record at
position 7 (after `ce = 6`) carries distance `-(7 - 6)`, and the record at
position 0 (before `cs = 5`) carries distance `5 - 0`. -/
theorem C2_witness :
    (BedRecord.mk 7 2 (-1) 2).dist = -(((7 : ℕ) : ℤ) - 6) ∧
      (BedRecord.mk 0 2 5 2).dist = (5 : ℤ) - ((0 : ℕ) : ℤ) := by
  have t7 := C2_distance_sign_convention 5 6 1 1 4 nocW ucW pcW
    [⟨0, 2, 5, 2⟩, ⟨7, 2, -1, 2⟩] [] ⟨7, 2, -1, 2⟩ (by decide)
    (Or.inl (by decide))
  have t0 := C2_distance_sign_convention 5 6 1 1 4 nocW ucW pcW
    [⟨0, 2, 5, 2⟩, ⟨7, 2, -1, 2⟩] [] ⟨0, 2, 5, 2⟩ (by decide)
    (Or.inl (by decide))
  exact ⟨t7.1 (by decide), t0.2.1 (by decide) (by decide)⟩

/-! ## `PLFoldOutput` serialization round trip (RNAtweaks.py)

`PLFoldOutput.from_numpy` renders an unpaired-probability array through
`__array_to_string` (values rounded to 7 decimals by `np.round`, which rounds
half to even; a NaN renders as `nan`, replaced by `NA` in `__sanitize`);
`get_text` returns that text, and `numpy_array` parses it back, dropping the
header lines and the leading 1-based position column and turning `NA` into
NaN.  Python float-to-string-to-float conversion is exact, so a serialized
cell is faithfully modelled by the rounded rational (or `none` for NaN).
`PLFoldOutput.__eq__` is `np.allclose(..., equal_nan=True, atol=1e-7, rtol=0)`,
i.e. equal shapes plus element-wise closeness with two NaN cells equal. -/

/-- Round to the nearest integer, halves to the even integer, as `np.round`
does at integer resolution. -/
def roundHalfEven (y : ℚ) : ℤ :=
  if y - ⌊y⌋ < 1/2 then ⌊y⌋
  else if 1/2 < y - ⌊y⌋ then ⌊y⌋ + 1
  else if ⌊y⌋ % 2 = 0 then ⌊y⌋ else ⌊y⌋ + 1

/-- `np.round(x, 7)`: round half to even at the 7th decimal. -/
def round7 (q : ℚ) : ℚ := (roundHalfEven (q * 10000000) : ℚ) / 10000000

/-- Rounding one profile cell: `np.round` keeps NaN as NaN. -/
def roundCell (c : PyFloat) : PyFloat := c.map round7

/-- `PLFoldOutput.__array_to_string` (line 1067): one text line per row, a
1-based position index followed by the rounded cell values. -/
def array_to_text (A : List (List PyFloat)) : List (ℕ × List PyFloat) :=
  A.enum.map (fun p => (p.1 + 1, p.2.map roundCell))

/-- `PLFoldOutput.numpy_array` (line 1077) parsing of serialized text: header
lines are skipped (not represented here) and the leading position column is
dropped (`line.split("\t")[1:]`); `NA` parses back to NaN. -/
def text_to_array (t : List (ℕ × List PyFloat)) : List (List PyFloat) :=
  t.map Prod.snd

/-- One-cell closeness of `np.allclose(..., equal_nan=True, atol=1e-7,
rtol=0)`: two NaN cells are equal, two numbers must differ by at most 1e-7,
and a NaN never equals a number. -/
def cellsClose : PyFloat → PyFloat → Bool
  | none, none => true
  | some a, some b => decide (|a - b| ≤ 1/10000000)
  | _, _ => false

/-- Row-wise `np.allclose`: equal length and element-wise closeness. -/
def rowsClose : List PyFloat → List PyFloat → Bool
  | [], [] => true
  | a :: r, b :: s => cellsClose a b && rowsClose r s
  | _, _ => false

/-- `PLFoldOutput.__eq__` (line 981): equal shapes plus element-wise
closeness within absolute tolerance 1e-7, NaN cells comparing equal. -/
def plfold_allclose : List (List PyFloat) → List (List PyFloat) → Bool
  | [], [] => true
  | r :: a, s :: b => rowsClose r s && plfold_allclose a b
  | _, _ => false

lemma roundHalfEven_close (y : ℚ) : |y - (roundHalfEven y : ℚ)| ≤ 1/2 := by
  have h0 : (0 : ℚ) ≤ y - ⌊y⌋ := by
    have := Int.floor_le y; linarith
  have h1 : y - ⌊y⌋ < 1 := by
    have := Int.lt_floor_add_one y; linarith
  unfold roundHalfEven
  split
  · rename_i hlt
    rw [abs_le]; constructor <;> linarith
  · rename_i hge
    split
    · rename_i hgt
      push_cast
      rw [abs_le]; constructor <;> linarith
    · rename_i hle
      have heq : y - (⌊y⌋ : ℚ) = 1/2 := by linarith
      split
      · rw [abs_le]; constructor <;> linarith
      · push_cast
        rw [abs_le]; constructor <;> linarith

lemma round7_close (q : ℚ) : |q - round7 q| ≤ 1/10000000 := by
  have h := roundHalfEven_close (q * 10000000)
  unfold round7
  have heq : q - (roundHalfEven (q * 10000000) : ℚ) / 10000000 =
      (q * 10000000 - (roundHalfEven (q * 10000000) : ℚ)) / 10000000 := by
    ring
  rw [heq, abs_div]
  have hpos : |(10000000 : ℚ)| = 10000000 := by norm_num
  rw [hpos, div_le_iff₀ (by norm_num)]
  calc |q * 10000000 - (roundHalfEven (q * 10000000) : ℚ)| ≤ 1/2 := h
    _ ≤ 1/10000000 * 10000000 := by norm_num

lemma cellsClose_roundCell (c : PyFloat) : cellsClose c (roundCell c) = true := by
  cases c with
  | none => rfl
  | some q =>
    simp only [roundCell, Option.map_some', cellsClose, decide_eq_true_eq]
    exact round7_close q

lemma rowsClose_roundCell (r : List PyFloat) :
    rowsClose r (r.map roundCell) = true := by
  induction r with
  | nil => rfl
  | cons c r ih =>
    simp only [List.map_cons, rowsClose, Bool.and_eq_true]
    exact ⟨cellsClose_roundCell c, ih⟩

lemma enumFrom_map_roundRow :
    ∀ (A : List (List PyFloat)) (n : ℕ),
      text_to_array ((List.enumFrom n A).map (fun p => (p.1 + 1, p.2.map roundCell)))
        = A.map (fun row => row.map roundCell)
  | [], _ => rfl
  | row :: A, n => by
    simp only [List.enumFrom, List.map_cons, text_to_array, List.map_cons,
      List.map_map]
    have := enumFrom_map_roundRow A (n + 1)
    simp only [text_to_array, List.map_map] at this
    exact congrArg (List.cons (row.map roundCell)) this

/-- C3: round trip — parsing the text rendered by the `PLFoldOutput`
serialization path yields an array equal to the original under
`PLFoldOutput.__eq__` (element-wise closeness within absolute tolerance 1e-7,
two not-available cells comparing equal), including arrays that contain
not-available cells. -/
theorem C3_plfold_roundtrip :
    ∀ A : List (List PyFloat),
      plfold_allclose A (text_to_array (array_to_text A)) = true := by
  intro A
  unfold array_to_text
  rw [show A.enum = List.enumFrom 0 A from rfl]
  rw [enumFrom_map_roundRow A 0]
  induction A with
  | nil => rfl
  | cons row A ih =>
    simp only [List.map_cons, plfold_allclose, Bool.and_eq_true]
    exact ⟨rowsClose_roundCell row, ih⟩

/-! ## Window/span clamping (`api_rnaplfold` lines 1632-1639, identical in
`cmd_rnaplfold` lines 1547-1554) -/

/-- The window/span auto-correction performed before folding: a window larger
than the sequence shrinks to the sequence length, then a span larger than the
(possibly shrunk) window shrinks to the window; both emit only a logged
warning. -/
def clamp_window_span (seqlen window span : ℕ) : ℕ × ℕ :=
  let window' := if window > seqlen then seqlen else window
  let span' := if span > window' then window' else span
  (window', span')

/-- C4: if the requested window exceeds the sequence length the window used is
the sequence length, otherwise the requested window; if the requested span
exceeds the (possibly clamped) window the span used is that window, otherwise
the requested span; the clamping function is total, so no hard error is
raised for either condition. -/
theorem C4_window_span_clamped :
    ∀ seqlen window span : ℕ,
      (window > seqlen → (clamp_window_span seqlen window span).1 = seqlen) ∧
      (window ≤ seqlen → (clamp_window_span seqlen window span).1 = window) ∧
      (span > (clamp_window_span seqlen window span).1 →
        (clamp_window_span seqlen window span).2
          = (clamp_window_span seqlen window span).1) ∧
      (span ≤ (clamp_window_span seqlen window span).1 →
        (clamp_window_span seqlen window span).2 = span) := by
  intro seqlen window span
  refine ⟨?_, ?_, ?_, ?_⟩ <;> intro h <;>
    simp only [clamp_window_span] at * <;> split_ifs at * <;> omega

/-- Closed witness for C4: a window of 10 on a sequence of length 5 shrinks to
5, and a span of 20 then shrinks to the clamped window. -/
theorem C4_witness :
    (clamp_window_span 5 10 20).1 = 5 ∧
      (clamp_window_span 5 10 20).2 = (clamp_window_span 5 10 20).1 :=
  ⟨(C4_window_span_clamped 5 10 20).1 (by decide),
   (C4_window_span_clamped 5 10 20).2.2.1 (by decide)⟩

/-! ## Constraint bound checking (`_check_constraint`, RNAtweaks.py lines
1919-1925), called for every constraint entry before any constraint is
applied (`api_rnaplfold` line 1654, `cmd_rnaplfold` line 1526). -/

/-- `_check_constraint`: raises `ValueError` (the hard error of the
`ConstraintOutOfBounds` taxonomy entry) when `start > end`, `start < 0` or
`sequence_length < end`; returns silently otherwise — no bound is ever
clamped. -/
def _check_constraint (sequence_length start ende : ℤ) : Except String Unit :=
  if start > ende then
    Except.error "Constraint start greater than end"
  else if start < 0 then
    Except.error "Constraint start out of sequence bounds"
  else if sequence_length < ende then
    Except.error "Constraint end out of sequence bounds"
  else Except.ok ()

/-- C5: a fold call's constraint check succeeds exactly when
`0 ≤ start ≤ end ≤ sequence_length`; any violated bound is a hard error
rather than a silent clamp, and no error is raised for constraints satisfying
the bounds. -/
theorem C5_constraint_bounds_hard_error :
    ∀ (sequence_length start ende : ℤ),
      _check_constraint sequence_length start ende = Except.ok () ↔
        0 ≤ start ∧ start ≤ ende ∧ ende ≤ sequence_length := by
  intro L s e
  unfold _check_constraint
  by_cases h1 : s > e
  · rw [if_pos h1]; simp; omega
  · rw [if_neg h1]
    by_cases h2 : s < 0
    · rw [if_pos h2]; simp; omega
    · rw [if_neg h2]
      by_cases h3 : L < e
      · rw [if_pos h3]; simp; omega
      · rw [if_neg h3]; simp; omega

/-! ## Constraint dispatch of `api_rnaplfold` (lines 1649-1668)

Python parses `A or B and C` as `A or (B and C)`, so the branch
`if mode == "paired" or mode == "p" and constype == "hard"` catches every
`"paired"` constraint regardless of `constype`. -/

/-- The action selected by the `api_rnaplfold` constraint dispatch. -/
inductive ConstraintAction where
  | hardPaired
  | hardUnpaired
  | mutateSeq
  | softUnpaired
  | raiseNotImplemented
  | raiseValueErr
  deriving Repr, DecidableEq

/-- Line 1650: `mode = entry[0] if constype in ["hard", "soft"] else
"mutate"`. -/
def api_mode (kind constype : String) : String :=
  if constype = "hard" ∨ constype = "soft" then kind else "mutate"

/-- The if/elif chain of lines 1655-1668, with Python operator precedence
made explicit. -/
def api_constraint_dispatch (mode constype : String) : ConstraintAction :=
  if mode = "paired" ∨ (mode = "p" ∧ constype = "hard") then
    ConstraintAction.hardPaired
  else if mode = "unpaired" ∨ (mode = "u" ∧ constype = "hard") then
    ConstraintAction.hardUnpaired
  else if mode = "mutate" then ConstraintAction.mutateSeq
  else if mode = "unpaired" ∨ (mode = "u" ∧ constype = "soft") then
    ConstraintAction.softUnpaired
  else if mode = "paired" ∨ (mode = "p" ∧ constype = "soft") then
    ConstraintAction.raiseNotImplemented
  else ConstraintAction.raiseValueErr

/-- C6 (evaluation at the failing input): a soft constraint of kind
`"paired"` is dispatched to the hard-paired action — the first branch of the
chain catches it by operator precedence — instead of raising
`NotImplementedError`; only the spelling `"p"` reaches the raise branch.  The
soft-paired path is therefore silently executed as a hard constraint, contrary
to the claim and to the unreachable raise branch the code itself contains. -/
theorem C6_soft_paired_dispatch :
    api_constraint_dispatch (api_mode "paired" "soft") "soft"
        = ConstraintAction.hardPaired ∧
      api_constraint_dispatch (api_mode "p" "soft") "soft"
        = ConstraintAction.raiseNotImplemented := by
  constructor <;> rfl

/-! ## Sequence mutation (`_mutate`, RNAtweaks.py lines 852-893)

`_mutate` copies the sequence into a list, runs
`for x in range(start, end): seq[x] = value[x - start]`, optionally repeats
for a second region guarded by Python truthiness (`if fstart and fend:` — both
`None` and `0` are falsy), and joins the list back.  An out-of-range index
raises `IndexError`, which the enclosing handler turns into a `None` return,
modelled as `none`. -/

/-- Python truthiness of an optional int: `None` and `0` are falsy. -/
def pyTruthy : Option ℕ → Bool
  | none => false
  | some n => n != 0

/-- Python list cell assignment `seq[x] = c`: `IndexError` out of bounds. -/
def pySet (l : List Char) (i : ℕ) (c : Char) : Option (List Char) :=
  if i < l.length then some (l.set i c) else none

/-- The loop `for x in range(s, s+n): seq[x] = value[x - off]`, indexed by the
number `n` of remaining iterations. -/
def mutateIter (value : List Char) (off : ℕ) :
    List Char → ℕ → ℕ → Option (List Char)
  | seq, _, 0 => some seq
  | seq, s, n + 1 =>
    match value.get? (s - off) with
    | none => none
    | some c =>
      match pySet seq s c with
      | none => none
      | some seq' => mutateIter value off seq' (s + 1) n

/-- `for x in range(s, e): seq[x] = value[x - off]` (`range(s, e)` has
`e - s` elements, none when `e ≤ s`). -/
def mutateRange (value : List Char) (off : ℕ) (seq : List Char) (s e : ℕ) :
    Option (List Char) :=
  mutateIter value off seq s (e - s)

/-- `_mutate` (lines 876-885): substitute `value` over `[start, end)`, then —
only when both optional second bounds are truthy — over `[fstart, fend)`. -/
def _mutate (sequence : List Char) (start ende : ℕ) (value : List Char)
    (fstart fend : Option ℕ) : Option (List Char) :=
  match mutateRange value start sequence start ende with
  | none => none
  | some seq1 =>
    if pyTruthy fstart && pyTruthy fend then
      mutateRange value (fstart.getD 0) seq1 (fstart.getD 0) (fend.getD 0)
    else some seq1

lemma pySet_some {l : List Char} {i : ℕ} {c : Char} {l' : List Char}
    (h : pySet l i c = some l') :
    i < l.length ∧ l' = l.set i c := by
  unfold pySet at h
  split at h
  · rename_i hi
    simp only [Option.some.injEq] at h
    exact ⟨hi, h.symm⟩
  · simp at h

lemma mutateIter_length :
    ∀ (n : ℕ) (value : List Char) (off : ℕ) (seq : List Char) (s : ℕ)
      (out : List Char),
      mutateIter value off seq s n = some out → out.length = seq.length := by
  intro n
  induction n with
  | zero =>
    intro v off seq s out h
    simp only [mutateIter, Option.some.injEq] at h
    rw [← h]
  | succ n ih =>
    intro v off seq s out h
    simp only [mutateIter] at h
    split at h
    · simp at h
    · rename_i c hv
      split at h
      · simp at h
      · rename_i seq' hset
        obtain ⟨hi, hseq'⟩ := pySet_some hset
        rw [ih v off seq' (s + 1) out h, hseq', List.length_set]

lemma mutateIter_frame :
    ∀ (n : ℕ) (value : List Char) (off : ℕ) (seq : List Char) (s : ℕ)
      (out : List Char),
      mutateIter value off seq s n = some out →
      ∀ i : ℕ, (i < s ∨ s + n ≤ i) → out.get? i = seq.get? i := by
  intro n
  induction n with
  | zero =>
    intro v off seq s out h i hi
    simp only [mutateIter, Option.some.injEq] at h
    rw [← h]
  | succ n ih =>
    intro v off seq s out h i hi
    simp only [mutateIter] at h
    split at h
    · simp at h
    · rename_i c hv
      split at h
      · simp at h
      · rename_i seq' hset
        obtain ⟨hlt, hseq'⟩ := pySet_some hset
        have hrec := ih v off seq' (s + 1) out h i (by omega)
        rw [hrec, hseq', List.get?_set_ne c seq (by omega)]

lemma mutateIter_subst :
    ∀ (n : ℕ) (value : List Char) (off : ℕ) (seq : List Char) (s : ℕ)
      (out : List Char),
      mutateIter value off seq s n = some out →
      ∀ i : ℕ, s ≤ i → i < s + n → out.get? i = value.get? (i - off) := by
  intro n
  induction n with
  | zero =>
    intro v off seq s out h i his hin
    omega
  | succ n ih =>
    intro v off seq s out h i his hin
    simp only [mutateIter] at h
    split at h
    · simp at h
    · rename_i c hv
      split at h
      · simp at h
      · rename_i seq' hset
        obtain ⟨hlt, hseq'⟩ := pySet_some hset
        by_cases hi : i = s
        · subst hi
          have hfr := mutateIter_frame n v off seq' (i + 1) out h i (by omega)
          rw [hfr, hseq', List.get?_set_eq_of_lt c hlt, hv]
        · exact ih v off seq' (s + 1) out h i (by omega) (by omega)

lemma mutateRange_length {value : List Char} {off : ℕ} {seq : List Char}
    {s e : ℕ} {out : List Char} (h : mutateRange value off seq s e = some out) :
    out.length = seq.length :=
  mutateIter_length (e - s) value off seq s out h

lemma mutateRange_frame {value : List Char} {off : ℕ} {seq : List Char}
    {s e : ℕ} {out : List Char} (h : mutateRange value off seq s e = some out) :
    ∀ i : ℕ, ¬(s ≤ i ∧ i < e) → out.get? i = seq.get? i := by
  intro i hi
  exact mutateIter_frame (e - s) value off seq s out h i (by omega)

lemma mutateRange_subst {value : List Char} {off : ℕ} {seq : List Char}
    {s e : ℕ} {out : List Char} (h : mutateRange value off seq s e = some out) :
    ∀ i : ℕ, s ≤ i → i < e → out.get? i = value.get? (i - off) := by
  intro i his hie
  exact mutateIter_subst (e - s) value off seq s out h i his (by omega)

/-- C10: whenever `_mutate` returns a string, it has the same length as the
input sequence, and every position outside `[start, end)` — and outside
`[fstart, fend)` whenever a second region is given — holds the same character
as the input sequence. -/
theorem C10_mutate_length_and_frame :
    ∀ (sequence : List Char) (start ende : ℕ) (value : List Char)
      (fstart fend : Option ℕ) (out : List Char),
      _mutate sequence start ende value fstart fend = some out →
      out.length = sequence.length ∧
      ∀ i : ℕ, ¬(start ≤ i ∧ i < ende) →
        (∀ fs fe : ℕ, fstart = some fs → fend = some fe → ¬(fs ≤ i ∧ i < fe)) →
        out.get? i = sequence.get? i := by
  intro seq start ende v fstart fend out h
  unfold _mutate at h
  split at h
  · simp at h
  · rename_i seq1 h1
    split at h
    · rename_i htr
      simp only [Bool.and_eq_true] at htr
      constructor
      · rw [mutateRange_length h, mutateRange_length h1]
      · intro i hi1 hi2
        have hne2 : ¬(fstart.getD 0 ≤ i ∧ i < fend.getD 0) := by
          cases fstart with
          | none => exact absurd htr.1 (by simp [pyTruthy])
          | some fs =>
            cases fend with
            | none => exact absurd htr.2 (by simp [pyTruthy])
            | some fe =>
              simp only [Option.getD_some]
              exact hi2 fs fe rfl rfl
        rw [mutateRange_frame h i hne2, mutateRange_frame h1 i hi1]
    · simp only [Option.some.injEq] at h
      subst h
      exact ⟨mutateRange_length h1,
        fun i hi _ => mutateRange_frame h1 i hi⟩

/-- Closed witness for C10: mutating `"ACGU"` over `[1, 3)` with `"UU"` yields
`"AUUU"`, which keeps the input length and the character at position 0. -/
theorem C10_witness :
    ("AUUU".toList).length = ("ACGU".toList).length ∧
      ("AUUU".toList).get? 0 = ("ACGU".toList).get? 0 := by
  have t := C10_mutate_length_and_frame ("ACGU".toList) 1 3 ("UU".toList)
    none none ("AUUU".toList) (by decide)
  exact ⟨t.1, t.2 0 (by decide) (fun fs fe hfs _ => by cases hfs)⟩

/-! ## The mutate path of the folding wrappers (`api_rnaplfold` line 1660,
`cmd_rnaplfold` line 1532)

Both wrappers call `_mutate(sequence, start, end - 1, value)` for a mutate
constraint `(_, start, end)` and fold the returned sequence (a new
`fold_compound` is built from it at line 1661 before any probability
computation). -/

/-- The sequence actually folded by `api_rnaplfold` for a mutate constraint
`(start, end, value)`: the wrapper passes `end - 1` as the mutation end. -/
def api_mutate_sequence (sequence : List Char) (start ende : ℕ)
    (value : List Char) : Option (List Char) :=
  _mutate sequence start (ende - 1) value none none

/-- C7 counterexample: for the mutate constraint `[0, 2)` with replacement
`"UU"` on `"ACGU"`, the wrapper folds `"UCGU"`: position 1 — inside the
claimed region `[start, end)` — still holds the original `'C'`, not the
replacement character `'U'`. -/
theorem C7_counterexample :
    api_mutate_sequence ("ACGU".toList) 0 2 ("UU".toList)
        = some ("UCGU".toList) ∧
      ("UCGU".toList).get? 1 = some 'C' ∧ ¬('C' = 'U') := by
  refine ⟨?_, ?_, ?_⟩ <;> decide

/-- C7 (amended): for a mutate constraint with zero-based region
`[start, end)`, the sequence actually folded by the wrapper agrees with
`replacement[i - start]` at every index `i` in `[start, end - 1)` — the
wrapper passes `end - 1` to `_mutate`, so the last claimed position keeps its
original character — and the folded (mutated) sequence has the length of the
input; the new folding model is built from exactly this returned sequence
before any probability computation. -/
theorem C7_mutate_substitution_amended :
    ∀ (sequence value : List Char) (start ende : ℕ) (out : List Char),
      api_mutate_sequence sequence start ende value = some out →
      out.length = sequence.length ∧
      ∀ i : ℕ, start ≤ i → i + 1 < ende → out.get? i = value.get? (i - start) := by
  intro seq v start ende out h
  unfold api_mutate_sequence _mutate at h
  split at h
  · simp at h
  · rename_i seq1 h1
    split at h
    · rename_i htr
      exact absurd htr (by decide)
    · simp only [Option.some.injEq] at h
      subst h
      refine ⟨mutateRange_length h1, ?_⟩
      intro i his hie
      exact mutateRange_subst h1 i his (by omega)

/-- Closed witness for the amended C7: mutating `"ACGU"` over the constraint
region `[0, 2)` with `"UU"` folds `"UCGU"`, which keeps the input length and
carries the replacement character at position 0. -/
theorem C7_witness :
    ("UCGU".toList).length = ("ACGU".toList).length ∧
      ("UCGU".toList).get? 0 = ("UU".toList).get? 0 := by
  have t := C7_mutate_substitution_amended ("ACGU".toList) ("UU".toList) 0 2
    ("UCGU".toList) (by decide)
  exact ⟨t.1, t.2 0 (by decide) (by decide)⟩

/-! ## Opening energy (`_calc_nrg`, RNAtweaks.py lines 289-318)

`_calc_nrg` hard-codes `k_t = 0.61632077549999997` — the 17-digit decimal
expansion of the IEEE-754 double nearest to `0.6163207755` — takes no
temperature argument, and returns `-1 * k_t * log(bpp)` for a positive
base-pair probability and the initial value `0.0` otherwise. -/

/-- The fixed constant `k_t` of `_calc_nrg` (line 305), as written in the
source. -/
def k_t : ℚ := 0.61632077549999997

/-- `_calc_nrg`: pseudo opening energy from a base-pair probability. -/
noncomputable def _calc_nrg (bpp : ℝ) : ℝ :=
  if bpp > 0 then -1 * (k_t : ℝ) * Real.log bpp else 0

/-- C8: the derived opening energy equals `-k_t * ln(p)` for `p > 0` and `0`
for `p ≤ 0`, where the constant of the source differs from the spec's
`0.6163207755` by less than `2⁻⁵⁴` — half the binary64 ulp in `[1/2, 1)` — so
both decimals denote the same IEEE-754 double; `_calc_nrg` receives no
temperature parameter, so the constant is independent of the folding
temperature. -/
theorem C8_opening_energy_formula :
    ∀ p : ℝ,
      (0 < p → _calc_nrg p = -(k_t : ℝ) * Real.log p) ∧
      (p ≤ 0 → _calc_nrg p = 0) ∧
      |k_t - 0.6163207755| < 1 / 2 ^ 54 := by
  intro p
  refine ⟨?_, ?_, ?_⟩
  · intro h
    unfold _calc_nrg
    rw [if_pos h]
    ring
  · intro h
    unfold _calc_nrg
    rw [if_neg (not_lt.mpr h)]
  · rw [k_t]
    rw [show (0.61632077549999997 : ℚ) - 0.6163207755
        = -(3 / 100000000000000000) from by norm_num]
    rw [abs_neg, abs_of_pos (by norm_num)]
    norm_num

/-- Closed witness for C8: at `p = 1` the positive branch applies, at
`p = -1` the non-positive branch returns `0`. -/
theorem C8_witness :
    _calc_nrg 1 = -(k_t : ℝ) * Real.log 1 ∧ _calc_nrg (-1) = 0 :=
  ⟨(C8_opening_energy_formula 1).1 (by norm_num),
   (C8_opening_energy_formula (-1)).2.1 (by norm_num)⟩

/-! ## ΔΔG defaulting (`FoldOutput.from_rnamediator_fold_compound`,
RNAtweaks.py lines 1286-1359)

A `FoldOutput` maps condition names to records.  After storing constraint,
gibbs and nrg for the requested condition, the deltas are computed as
`unconstrained.gibbs - gibbs` / `unconstrained.nrg - nrg` only when the key
`unconstrained` holds an entry and the condition itself is not
`unconstrained`; otherwise both deltas are set to `0` (lines 1352-1357).  The
engine-side quantities (`_calc_gibbs(fc)`, `_calc_bpp`, the bppm) come from
the external ViennaRNA fold compound and enter here as plain inputs.  The
condition name is checked by an `assert` against a closed list. -/

/-- One condition record of a `FoldOutput` (the bppm matrix itself is elided;
its derived aggregate `bpp` is kept). -/
structure CondRecord where
  constraint : Option String
  gibbs : ℚ
  bpp : ℚ
  nrg : ℚ
  ddg : ℚ
  dnrg : ℚ
  deriving Repr, DecidableEq

/-- A `FoldOutput` as an insertion-ordered association list. -/
abbrev FoldOutputMap := List (String × CondRecord)

/-- `self.get(key)`: the stored record, if any (a stored record is a
non-empty Python dict, hence truthy). -/
def lookup_condition (m : FoldOutputMap) (k : String) : Option CondRecord :=
  (m.find? (fun p => p.1 == k)).map Prod.snd

/-- `self[key] = record`, replacing any previous entry. -/
def set_condition (m : FoldOutputMap) (k : String) (v : CondRecord) :
    FoldOutputMap :=
  (k, v) :: m.eraseP (fun p => p.1 == k)

/-- The closed list of condition names accepted by the `assert` at lines
1317-1330. -/
def valid_conditions : List String :=
  ["unconstrained", "constraint", "pairedconstraint", "constraint_unpaired",
   "constraint_paired", "secondconstraint_unpaired",
   "secondconstraint_paired", "bothconstraint_unpaired",
   "bothconstraint_paired"]

/-- `FoldOutput.from_rnamediator_fold_compound`: store the condition's
record, defaulting `ddg`/`dnrg` to `0` unless an `unconstrained` entry exists
and the condition differs from `unconstrained`. -/
def from_rnamediator_fold_compound (m : FoldOutputMap) (condition : String)
    (constr : Option String) (gibbs bpp nrg : ℚ) :
    Except String FoldOutputMap :=
  if !(valid_conditions.contains condition) then
    Except.error "AssertionError"
  else
    let dd : ℚ × ℚ :=
      match lookup_condition m "unconstrained" with
      | some u =>
        if condition ≠ "unconstrained" then (u.gibbs - gibbs, u.nrg - nrg)
        else (0, 0)
      | none => (0, 0)
    Except.ok (set_condition m condition ⟨constr, gibbs, bpp, nrg, dd.1, dd.2⟩)

/-- C9: populating a `FoldOutput` condition when no entry is stored under the
key `unconstrained` — or when the condition itself is `unconstrained` — raises
no error (for any condition passing the assert) and stores both deltas as
`0`; a non-zero delta can only be stored when the `unconstrained` key is
present. -/
theorem C9_ddg_defaults_to_zero :
    ∀ (m : FoldOutputMap) (condition : String) (constr : Option String)
      (gibbs bpp nrg : ℚ),
      condition ∈ valid_conditions →
      (lookup_condition m "unconstrained" = none ∨ condition = "unconstrained") →
      (from_rnamediator_fold_compound m condition constr gibbs bpp nrg).isOk
          = true ∧
      ∀ m' : FoldOutputMap,
        from_rnamediator_fold_compound m condition constr gibbs bpp nrg
            = Except.ok m' →
        lookup_condition m' condition = some ⟨constr, gibbs, bpp, nrg, 0, 0⟩ := by
  intro m condition constr gibbs bpp nrg hvalid hnone
  have hc2 : valid_conditions.contains condition = true :=
    List.elem_iff.mpr hvalid
  have hc : (!(valid_conditions.contains condition)) = false := by
    rw [hc2]; rfl
  have hdd :
      (match lookup_condition m "unconstrained" with
        | some u =>
          if condition ≠ "unconstrained" then (u.gibbs - gibbs, u.nrg - nrg)
          else ((0 : ℚ), (0 : ℚ))
        | none => ((0 : ℚ), (0 : ℚ))) = ((0 : ℚ), (0 : ℚ)) := by
    rcases hnone with hnone | hcond
    · rw [hnone]
    · cases hlk : lookup_condition m "unconstrained" with
      | none => rfl
      | some u => simp [hcond]
  constructor
  · unfold from_rnamediator_fold_compound
    rw [hc]
    rfl
  · intro m' hm'
    unfold from_rnamediator_fold_compound at hm'
    rw [hc] at hm'
    simp only [Bool.false_eq_true, if_false, hdd, Except.ok.injEq] at hm'
    rw [← hm']
    simp [lookup_condition, set_condition, List.find?]

/-- Closed witness for C9: storing condition `constraint_paired` in an empty
`FoldOutput` succeeds and records `ddg = dnrg = 0`. -/
theorem C9_witness :
    (from_rnamediator_fold_compound [] "constraint_paired" none 1 1 2).isOk
        = true ∧
      lookup_condition [("constraint_paired", CondRecord.mk none 1 1 2 0 0)]
          "constraint_paired" = some (CondRecord.mk none 1 1 2 0 0) := by
  have t := C9_ddg_defaults_to_zero [] "constraint_paired" none 1 1 2
    (by decide) (Or.inl rfl)
  exact ⟨t.1, t.2 [("constraint_paired", CondRecord.mk none 1 1 2 0 0)]
    (by decide)⟩
